import Mathlib

/-!
Shallow embedding of the core of the CryptoRetirementStrategy repository
(`src/retirement_engine.py` and `src/portfolio.py`), with theorems settling
the specification claims about the HIFO lot selector, the buffer state
machine, the long/short-term holding classification and the portfolio
scorer.

Real numbers of the Python source are embedded as rationals (`ℚ`).
Python's `round(x, 8)` is embedded as exact round-half-to-even on the
8th decimal place.  Acquisition-date strings are embedded by the three
cases the engine distinguishes: the empty (falsy) string, a non-empty
string that `strptime` rejects, and a successfully parsed calendar date.
-/

/-- Calendar date as used by `datetime` comparisons: lexicographic on
(year, month, day); the engine never depends on the time-of-day part. -/
structure Date where
  year : Int
  month : Int
  day : Int
deriving DecidableEq, Repr

/-- `datetime` order (dates compare lexicographically). -/
def dateLE (a b : Date) : Bool :=
  decide (a.year < b.year ∨ (a.year = b.year ∧
    (a.month < b.month ∨ (a.month = b.month ∧ a.day ≤ b.day))))

/-- Gregorian leap-year test, as in `datetime`. -/
def isLeap (y : Int) : Bool :=
  y % 4 == 0 && (y % 100 != 0 || y % 400 == 0)

/-- `current_date.replace(year=current_date.year - 1)`: raises `ValueError`
(embedded as `none`) exactly when the result would be Feb 29 of a
non-leap year. -/
def replaceYearMinus1 (d : Date) : Option Date :=
  if d.month == 2 && d.day == 29 && !(isLeap (d.year - 1)) then none
  else some ⟨d.year - 1, d.month, d.day⟩

/-- The acquisition-date string as the engine's `is_long_term` sees it:
empty (falsy), non-empty but rejected by `strptime("%Y-%m-%d")`, or
parsed to a calendar date. -/
inductive DateInput where
  | missing
  | unparseable
  | parsed (d : Date)
deriving DecidableEq, Repr

/-- `CryptoRetirementApp.is_long_term` (retirement_engine.py:201-225).
The empty string makes `acquisition_date = current_date`; a parse failure
or a `ValueError` from `replace` falls into the bare `except` returning
`False`; otherwise the result is `acquisition_date <= one_year_ago`. -/
def is_long_term (date_acquired : DateInput) (current_date : Date) : Bool :=
  match date_acquired with
  | .unparseable => false
  | .missing =>
    match replaceYearMinus1 current_date with
    | none => false
    | some one_year_ago => dateLE current_date one_year_ago
  | .parsed d =>
    match replaceYearMinus1 current_date with
    | none => false
    | some one_year_ago => dateLE d one_year_ago

/-- `TaxLot` dataclass (retirement_engine.py:12-26). -/
structure TaxLot where
  lot_id : String
  asset : String
  amount : ℚ
  cost_basis_per_unit : ℚ
  date_acquired : DateInput
  fee_paid : ℚ := 0
  location : String := ""
deriving DecidableEq, Repr

/-- A sell-plan entry (the dicts built in `get_hifo_sell_plan`).  The
synthetic "manual" entry omits `cost_basis`, `date_acquired` and
`location`; downstream reads use `.get` with defaults `0`, `""`, `""`,
which the field defaults reproduce. -/
structure SellInstruction where
  lot_id : String
  asset : String
  sell_amount : ℚ
  cost_basis : ℚ := 0
  estimated_gain_loss : ℚ
  date_acquired : DateInput := .missing
  location : String := ""
deriving DecidableEq, Repr

/-- Round-half-to-even to an integer (Python's `round(x)` on exact values). -/
def roundHalfEven (x : ℚ) : Int :=
  let f := ⌊x⌋
  let r := x - f
  if r < 1/2 then f
  else if 1/2 < r then f + 1
  else if 2 ∣ f then f else f + 1

/-- Python's `round(x, 8)`: round-half-to-even on the 8th decimal place. -/
def round8 (x : ℚ) : ℚ :=
  (roundHalfEven (x * 10 ^ 8) : ℚ) / 10 ^ 8

/-- Insert a lot into a list already sorted by descending
`cost_basis_per_unit`, passing over strictly higher cost bases only, so
that the element being inserted lands before every equal cost basis. -/
def insertLotDesc (x : TaxLot) : List TaxLot → List TaxLot
  | [] => [x]
  | y :: ys =>
    if x.cost_basis_per_unit < y.cost_basis_per_unit then y :: insertLotDesc x ys
    else x :: y :: ys

/-- `sorted(self.tax_lots, key=lambda x: x.cost_basis_per_unit, reverse=True)`.
Python's `sorted` is a stable sort; a stable sort's output is uniquely
determined by the key order and the input order, so this stable insertion
sort computes the same list. -/
def sortLotsDesc : List TaxLot → List TaxLot
  | [] => []
  | x :: xs => insertLotDesc x (sortLotsDesc xs)

/-- The lot-consumption loop of `get_hifo_sell_plan`
(retirement_engine.py:164-199), over the already-sorted lots:
stop when the remaining need is spent; consume a whole lot when its value
fits, else consume a rounded fraction and stop. -/
def hifoWalk (price : ℚ) : ℚ → List TaxLot → List SellInstruction
  | _, [] => []
  | remaining, lot :: rest =>
    if remaining ≤ 0 then []
    else
      let lot_value := lot.amount * price
      if lot_value ≤ remaining then
        { lot_id := lot.lot_id
          asset := lot.asset
          sell_amount := lot.amount
          cost_basis := lot.cost_basis_per_unit
          estimated_gain_loss := (price - lot.cost_basis_per_unit) * lot.amount
          date_acquired := lot.date_acquired
          location := lot.location } :: hifoWalk price (remaining - lot_value) rest
      else
        [{ lot_id := lot.lot_id
           asset := lot.asset
           sell_amount := round8 (remaining / price)
           cost_basis := lot.cost_basis_per_unit
           estimated_gain_loss := (price - lot.cost_basis_per_unit) * (remaining / price)
           date_acquired := lot.date_acquired
           location := lot.location }]

/-- `CryptoRetirementApp.get_hifo_sell_plan` (retirement_engine.py:141-199). -/
def get_hifo_sell_plan (tax_lots : List TaxLot) (usd_target current_price : ℚ) :
    List SellInstruction :=
  match tax_lots with
  | [] => [{ lot_id := "manual", asset := "BTC",
             sell_amount := usd_target / current_price, estimated_gain_loss := 0 }]
  | _ => hifoWalk current_price usd_target (sortLotsDesc tax_lots)

/-- The mutable state of a `CryptoRetirementApp` instance together with its
constructor-fixed parameters (retirement_engine.py:35-47). -/
structure AppState where
  monthly_need : ℚ
  buffer_target : ℚ
  cash_buffer : ℚ
  tax_lots : List TaxLot
deriving Repr

/-- `CryptoRetirementApp.__init__`: `buffer_target = monthly_need * 12 * buffer_years`,
empty lot store. -/
def mkApp (monthly_need : ℚ) (buffer_years : ℚ) (current_cash : ℚ) : AppState :=
  { monthly_need := monthly_need
    buffer_target := monthly_need * 12 * buffer_years
    cash_buffer := current_cash
    tax_lots := [] }

/-- The strategy dict returned by `calculate_attack_strategy`
(retirement_engine.py:81-91). -/
structure StrategyOutput where
  action : String
  amount_to_sell_usd : ℚ
  amount_to_sell_btc : ℚ
  amount_to_sell_eth : ℚ
  new_buffer : ℚ
  buffer_before : ℚ
  buffer_target : ℚ
  sell_plan : List SellInstruction
  warnings : List String
deriving Repr

/-- `sum(s.get("sell_amount", 0) for s in sell_plan if s.get("asset") == a)`. -/
def total_sell_amount (sell_plan : List SellInstruction) (a : String) : ℚ :=
  ((sell_plan.filter fun s => s.asset == a).map fun s => s.sell_amount).sum

/-- The warning text appended for a short-term sale (retirement_engine.py:132-135). -/
def shortTermWarning (lot_id : String) : String :=
  "Short-Term Tax Warning: Lot " ++ lot_id ++ " held <365 days. Consider tax impact."

/-- `CryptoRetirementApp.calculate_attack_strategy` (retirement_engine.py:64-139),
returning the mutated instance state together with the output dict.
The output dict starts with action "HOLD", zero sell amounts, and
`new_buffer` recorded from the pre-decrement buffer; the buffer is then
decremented unconditionally; below 80% of the target the HIFO plan is
computed and the nested sufficiency checks pick the action. -/
def calculate_attack_strategy (st : AppState) (btc_price btc_balance : ℚ)
    (current_date : Date) : AppState × StrategyOutput :=
  let buffer_before := st.cash_buffer
  let cash1 := st.cash_buffer - st.monthly_need
  let base : StrategyOutput :=
    { action := "HOLD"
      amount_to_sell_usd := 0
      amount_to_sell_btc := 0
      amount_to_sell_eth := 0
      new_buffer := buffer_before
      buffer_before := buffer_before
      buffer_target := st.buffer_target
      sell_plan := []
      warnings := [] }
  if cash1 < st.buffer_target * (8/10) then
    let amount_needed := st.buffer_target - cash1
    let sell_plan := get_hifo_sell_plan st.tax_lots amount_needed btc_price
    let total_sell_btc := total_sell_amount sell_plan "BTC"
    let total_sell_eth := total_sell_amount sell_plan "ETH"
    if total_sell_btc ≤ btc_balance ∨ 0 < total_sell_btc + total_sell_eth then
      if total_sell_btc ≤ btc_balance then
        let cash2 := cash1 + amount_needed
        ({ st with cash_buffer := cash2 },
         { base with
            action := "REFILL BUFFER"
            amount_to_sell_usd := amount_needed
            amount_to_sell_btc := round8 total_sell_btc
            amount_to_sell_eth := if total_sell_eth ≠ 0 then round8 total_sell_eth else 0
            new_buffer := cash2
            sell_plan := sell_plan
            warnings := sell_plan.filterMap fun s =>
              if is_long_term s.date_acquired current_date then none
              else some (shortTermWarning s.lot_id) })
      else
        ({ st with cash_buffer := cash1 },
         { base with
            action := "INSUFFICIENT FUNDS"
            amount_to_sell_usd := amount_needed
            sell_plan := sell_plan })
    else
      ({ st with cash_buffer := cash1 },
       { base with
          amount_to_sell_usd := amount_needed
          sell_plan := sell_plan })
  else
    ({ st with cash_buffer := cash1 }, base)

/-- `Holding` dataclass (portfolio.py:25-54). -/
structure Holding where
  asset : String
  amount : ℚ
  avg_cost : ℚ
  current_price : ℚ := 0
  symbol : String := ""
deriving DecidableEq, Repr

/-- `Holding.cost_basis`. -/
def Holding.cost_basis (h : Holding) : ℚ := h.amount * h.avg_cost

/-- `Holding.current_value`. -/
def Holding.current_value (h : Holding) : ℚ := h.amount * h.current_price

/-- Python's `max(values)` for a non-empty list (`0.0` guard for empty,
matching `max(values) if values else 0.0`). -/
def listMax : List ℚ → ℚ
  | [] => 0
  | [x] => x
  | x :: y :: ys => max x (listMax (y :: ys))

/-- `Portfolio._calculate_risk` (portfolio.py:163-180). -/
def calculate_risk (holdings : List Holding) : ℚ :=
  match holdings with
  | [] => 0
  | _ =>
    let values := holdings.map Holding.current_value
    let total_value := values.sum
    let top_holding_pct := if 0 < total_value then listMax values / total_value else 0
    let volatile_assets := ["BTC", "ETH", "SOL", "MATIC"]
    let volatile_values :=
      (holdings.filter fun h => decide (h.asset ∈ volatile_assets)).map Holding.current_value
    let volatile_pct := if 0 < total_value then volatile_values.sum / total_value else 0
    min (top_holding_pct * 50 + volatile_pct * 50) 100

/-- `Portfolio._get_asset_type` (portfolio.py:200-210); the returned
`AssetType.<X>.name` strings. -/
def get_asset_type (asset : String) : String :=
  if asset == "BTC" then "BTC"
  else if asset == "ETH" then "ETH"
  else if asset == "USDC" || asset == "USDT" || asset == "DAI" then "STABLECOIN"
  else "ALTCOIN"

/-- `Portfolio._calculate_diversification` (portfolio.py:182-198).
NB the source computes `len([h.asset for h in self.holdings])`, the length
of the *non-deduplicated* list, despite its `# Count unique assets`
comment; `asset_types` is a Python `set`, hence deduplicated. -/
def calculate_diversification (holdings : List Holding) : ℚ :=
  match holdings with
  | [] => 0
  | _ =>
    let unique_count := (holdings.map fun h => h.asset).length
    let asset_types := ((holdings.map fun h => get_asset_type h.asset).dedup).length
    min ((unique_count : ℚ) * 10 + (asset_types : ℚ) * 15) 100

/-- The four advisory strings of `Portfolio._generate_recommendations`
(emoji prefixes of the source omitted). -/
def recDiversify : String := "High concentration risk - consider diversifying"

/-- Advisory string for a low diversification score. -/
def recVariety : String := "Low diversification - add asset variety"

/-- Advisory string suggesting a stablecoin allocation. -/
def recStablecoin : String := "Consider adding stablecoins for stability"

/-- Advisory string suggesting partial profit-taking. -/
def recProfit : String := "Significant unrealized gains - consider partial profit-taking"

/-- `Portfolio._generate_recommendations` (portfolio.py:212-228): four
independent gates; the stablecoin gate tests membership of the holding's
asset in `["USDC", "USDT"]` only. -/
def generate_recommendations (holdings : List Holding)
    (risk_score diversification_score pnl_percentage : ℚ) : List String :=
  (if 75 < risk_score then [recDiversify] else []) ++
  (if diversification_score < 40 then [recVariety] else []) ++
  (if !(holdings.any fun h => h.asset == "USDC" || h.asset == "USDT")
   then [recStablecoin] else []) ++
  (if 50 < pnl_percentage then [recProfit] else [])

/-- `analysis.pnl_percentage` as computed in `Portfolio.analyze`
(portfolio.py:134-137): 0 unless `total_cost > 0`. -/
def portfolio_pnl_percentage (holdings : List Holding) : ℚ :=
  let total_value := (holdings.map Holding.current_value).sum
  let total_cost := (holdings.map Holding.cost_basis).sum
  if 0 < total_cost then (total_value - total_cost) / total_cost * 100 else 0

/-- The recommendation list of `Portfolio.analyze` for a non-empty
holdings list: `_generate_recommendations` applied to the analysis scores. -/
def portfolio_recommendations (holdings : List Holding) : List String :=
  generate_recommendations holdings (calculate_risk holdings)
    (calculate_diversification holdings) (portfolio_pnl_percentage holdings)

/-- Spec-side formula (§4.3): `top_share = max(holding.value) / total_value`
(0 if `total_value` is 0). -/
def spec_top_share (holdings : List Holding) : ℚ :=
  let total_value := (holdings.map Holding.current_value).sum
  if total_value = 0 then 0 else listMax (holdings.map Holding.current_value) / total_value

/-- Spec-side formula (§4.3): `volatile_share` = summed value of holdings
whose asset is one of BTC, ETH, SOL, MATIC, divided by the total value. -/
def spec_volatile_share (holdings : List Holding) : ℚ :=
  let total_value := (holdings.map Holding.current_value).sum
  ((holdings.filter fun h =>
      decide (h.asset = "BTC" ∨ h.asset = "ETH" ∨ h.asset = "SOL" ∨ h.asset = "MATIC")).map
    Holding.current_value).sum / total_value

/-- Concrete lot fixture: a BTC lot worth 10000 USD at price 1000 and an
ETH lot worth 1000 USD, both acquired long ago. -/
def lotsBtcEth : List TaxLot :=
  [ { lot_id := "b1", asset := "BTC", amount := 10, cost_basis_per_unit := 2000,
      date_acquired := .parsed ⟨2020, 1, 1⟩ },
    { lot_id := "e1", asset := "ETH", amount := 1, cost_basis_per_unit := 1500,
      date_acquired := .parsed ⟨2020, 1, 1⟩ } ]

/-- App state holding `lotsBtcEth` with the spec's running numbers
(monthly need 5000, target 120000, cash 100000). -/
def stBtcEth : AppState :=
  { monthly_need := 5000, buffer_target := 120000, cash_buffer := 100000,
    tax_lots := lotsBtcEth }

/-- Concrete lot fixture: a single BTC lot worth 10000 USD at price 1000. -/
def lotsBtcOnly : List TaxLot :=
  [ { lot_id := "b1", asset := "BTC", amount := 10, cost_basis_per_unit := 2000,
      date_acquired := .parsed ⟨2020, 1, 1⟩ } ]

/-- App state holding `lotsBtcOnly` with the spec's running numbers. -/
def stBtcOnly : AppState :=
  { monthly_need := 5000, buffer_target := 120000, cash_buffer := 100000,
    tax_lots := lotsBtcOnly }

/-- Concrete lot fixture: a single SOL lot (an asset that is neither BTC
nor ETH), so the computed plan has zero BTC and zero ETH quantity. -/
def lotsSolOnly : List TaxLot :=
  [ { lot_id := "s1", asset := "SOL", amount := 1, cost_basis_per_unit := 10,
      date_acquired := .parsed ⟨2020, 1, 1⟩ } ]

/-- App state holding `lotsSolOnly` with the spec's running numbers. -/
def stSolOnly : AppState :=
  { monthly_need := 5000, buffer_target := 120000, cash_buffer := 100000,
    tax_lots := lotsSolOnly }

/-- Concrete lot fixture for the rounding analysis: a single BTC lot of
2.6e-8 units at unit cost basis. -/
def lotsTiny : List TaxLot :=
  [ { lot_id := "t1", asset := "BTC", amount := 26/1000000000, cost_basis_per_unit := 1,
      date_acquired := .parsed ⟨2020, 1, 1⟩ } ]

/-- Concrete holding fixture: a portfolio whose only stablecoin is DAI. -/
def daiHoldings : List Holding :=
  [ { asset := "DAI", amount := 1, avg_cost := 1, current_price := 1 } ]

/-- Concrete holding fixture: two holdings of the same asset symbol BTC. -/
def twoBtcHoldings : List Holding :=
  [ { asset := "BTC", amount := 1, avg_cost := 1, current_price := 1 },
    { asset := "BTC", amount := 2, avg_cost := 1, current_price := 1 } ]

theorem roundHalfEven_le (x : ℚ) : (roundHalfEven x : ℚ) ≤ x + 1/2 := by
  unfold roundHalfEven
  dsimp only
  have hf : (⌊x⌋ : ℚ) ≤ x := Int.floor_le x
  split
  · linarith
  · split
    · push_cast
      rename_i h _
      rw [not_lt] at h
      linarith
    · split
      · linarith
      · push_cast
        rename_i h h' _
        rw [not_lt] at h h'
        linarith

theorem roundHalfEven_nonneg (x : ℚ) (hx : 0 ≤ x) : 0 ≤ roundHalfEven x := by
  unfold roundHalfEven
  dsimp only
  have hf : 0 ≤ ⌊x⌋ := Int.floor_nonneg.mpr hx
  split
  · exact hf
  · split
    · omega
    · split
      · exact hf
      · omega

theorem round8_le (x : ℚ) : round8 x ≤ x + 1 / (2 * 10 ^ 8) := by
  unfold round8
  have h := roundHalfEven_le (x * 10 ^ 8)
  rw [div_le_iff₀ (by norm_num : (0:ℚ) < 10 ^ 8)]
  calc (roundHalfEven (x * 10 ^ 8) : ℚ) ≤ x * 10 ^ 8 + 1/2 := h
    _ = (x + 1 / (2 * 10 ^ 8)) * 10 ^ 8 := by ring

theorem round8_nonneg (x : ℚ) (hx : 0 ≤ x) : 0 ≤ round8 x := by
  unfold round8
  have h := roundHalfEven_nonneg (x * 10 ^ 8) (by positivity)
  positivity

theorem listMax_nonneg (l : List ℚ) (h : ∀ x ∈ l, 0 ≤ x) : 0 ≤ listMax l := by
  induction l with
  | nil => simp [listMax]
  | cons x xs ih =>
    cases xs with
    | nil => simpa [listMax] using h x (by simp)
    | cons y ys =>
      have hx : 0 ≤ x := h x (by simp)
      calc (0:ℚ) ≤ x := hx
        _ ≤ max x (listMax (y :: ys)) := le_max_left _ _

theorem mem_insertLotDesc {a x : TaxLot} {l : List TaxLot} :
    a ∈ insertLotDesc x l ↔ a = x ∨ a ∈ l := by
  induction l with
  | nil => simp [insertLotDesc]
  | cons y ys ih =>
    unfold insertLotDesc
    split
    · simp [ih]
      tauto
    · simp

theorem mem_sortLotsDesc {a : TaxLot} {l : List TaxLot} :
    a ∈ sortLotsDesc l ↔ a ∈ l := by
  induction l with
  | nil => simp [sortLotsDesc]
  | cons x xs ih =>
    unfold sortLotsDesc
    rw [mem_insertLotDesc]
    simp [ih]

theorem pairwise_insertLotDesc {x : TaxLot} {l : List TaxLot}
    (h : l.Pairwise fun a b => b.cost_basis_per_unit ≤ a.cost_basis_per_unit) :
    (insertLotDesc x l).Pairwise fun a b => b.cost_basis_per_unit ≤ a.cost_basis_per_unit := by
  induction l with
  | nil => simp [insertLotDesc]
  | cons y ys ih =>
    rw [List.pairwise_cons] at h
    obtain ⟨hy, hys⟩ := h
    unfold insertLotDesc
    split
    · rename_i hlt
      rw [List.pairwise_cons]
      refine ⟨?_, ih hys⟩
      intro a ha
      rcases mem_insertLotDesc.mp ha with rfl | ha
      · exact le_of_lt hlt
      · exact hy a ha
    · rename_i hge
      rw [not_lt] at hge
      rw [List.pairwise_cons]
      constructor
      · intro a ha
        rcases List.mem_cons.mp ha with rfl | ha
        · exact hge
        · exact le_trans (hy a ha) hge
      · rw [List.pairwise_cons]
        exact ⟨hy, hys⟩

theorem pairwise_sortLotsDesc (l : List TaxLot) :
    (sortLotsDesc l).Pairwise fun a b => b.cost_basis_per_unit ≤ a.cost_basis_per_unit := by
  induction l with
  | nil => simp [sortLotsDesc]
  | cons x xs ih => exact pairwise_insertLotDesc ih

theorem filter_cost_insertLotDesc (c : ℚ) (x : TaxLot) (l : List TaxLot) :
    (insertLotDesc x l).filter (fun y => decide (y.cost_basis_per_unit = c)) =
      (x :: l).filter (fun y => decide (y.cost_basis_per_unit = c)) := by
  induction l with
  | nil => rfl
  | cons y ys ih =>
    unfold insertLotDesc
    split
    · rename_i hlt
      rw [List.filter_cons, List.filter_cons, ih, List.filter_cons]
      by_cases hx : x.cost_basis_per_unit = c
      · have hy : ¬ y.cost_basis_per_unit = c := by
          intro hy
          rw [hx, hy] at hlt
          exact lt_irrefl c hlt
        simp [hx, hy]
      · by_cases hy : y.cost_basis_per_unit = c <;> simp [hx, hy]
    · rfl

theorem filter_cost_sortLotsDesc (c : ℚ) (l : List TaxLot) :
    (sortLotsDesc l).filter (fun y => decide (y.cost_basis_per_unit = c)) =
      l.filter (fun y => decide (y.cost_basis_per_unit = c)) := by
  induction l with
  | nil => rfl
  | cons x xs ih =>
    show (insertLotDesc x (sortLotsDesc xs)).filter _ = _
    rw [filter_cost_insertLotDesc, List.filter_cons, List.filter_cons, ih]

theorem hifoWalk_pairs_sublist (price r : ℚ) (L : List TaxLot) :
    ((hifoWalk price r L).map fun s => (s.lot_id, s.cost_basis)).Sublist
      (L.map fun l => (l.lot_id, l.cost_basis_per_unit)) := by
  induction L generalizing r with
  | nil => simp [hifoWalk]
  | cons lot rest ih =>
    unfold hifoWalk
    dsimp only
    split
    · simp
    · split
      · exact List.Sublist.cons₂ _ (ih _)
      · exact List.Sublist.cons₂ _ (List.nil_sublist _)

theorem hifoWalk_sum_mul_le (price : ℚ) (hp : 0 < price) (L : List TaxLot) :
    ∀ r : ℚ, 0 ≤ r →
      ((hifoWalk price r L).map fun s => s.sell_amount).sum * price ≤
        r + price * (1 / 10 ^ 8) := by
  induction L with
  | nil =>
    intro r hr
    simp [hifoWalk]
    positivity
  | cons lot rest ih =>
    intro r hr
    unfold hifoWalk
    dsimp only
    split
    · simp
      positivity
    · split
      · rename_i hstop hfit
        have ih' := ih (r - lot.amount * price) (by linarith)
        rw [List.map_cons, List.sum_cons, add_mul]
        linarith
      · rename_i hstop hfit
        rw [not_le] at hfit
        simp only [List.map_cons, List.map_nil, List.sum_cons, List.sum_nil, add_zero]
        have h8 := round8_le (r / price)
        have : round8 (r / price) * price ≤ (r / price + 1 / (2 * 10 ^ 8)) * price := by
          exact mul_le_mul_of_nonneg_right h8 (le_of_lt hp)
        have hdiv : r / price * price = r := div_mul_cancel₀ r (ne_of_gt hp)
        nlinarith

theorem hifoWalk_qty_le (price : ℚ) (hp : 0 < price) (L : List TaxLot) :
    ∀ r : ℚ, ∀ s ∈ hifoWalk price r L,
      ∃ l ∈ L, s.lot_id = l.lot_id ∧ s.sell_amount ≤ l.amount + 1 / 10 ^ 8 := by
  induction L with
  | nil => intro r s hs; simp [hifoWalk] at hs
  | cons lot rest ih =>
    intro r s hs
    unfold hifoWalk at hs
    dsimp only at hs
    split at hs
    · simp at hs
    · split at hs
      · rcases List.mem_cons.mp hs with rfl | hs'
        · refine ⟨lot, by simp, rfl, ?_⟩
          have : (0:ℚ) < 1 / 10 ^ 8 := by norm_num
          linarith
        · obtain ⟨l, hl, h1, h2⟩ := ih _ s hs'
          exact ⟨l, by simp [hl], h1, h2⟩
      · rename_i hstop hfit
        rw [not_le] at hstop hfit
        rcases List.mem_singleton.mp hs with rfl
        refine ⟨lot, by simp, rfl, ?_⟩
        have h8 := round8_le (r / price)
        have hfrac : r / price < lot.amount := by
          rw [div_lt_iff₀ hp]
          linarith
        dsimp only
        calc round8 (r / price) ≤ r / price + 1 / (2 * 10 ^ 8) := h8
          _ ≤ lot.amount + 1 / 10 ^ 8 := by linarith

theorem hifoWalk_dropLast_whole (price : ℚ) (L : List TaxLot) :
    ∀ r : ℚ, ∀ s ∈ (hifoWalk price r L).dropLast,
      ∃ l ∈ L, s.lot_id = l.lot_id ∧ s.sell_amount = l.amount := by
  induction L with
  | nil => intro r s hs; simp [hifoWalk] at hs
  | cons lot rest ih =>
    intro r s hs
    unfold hifoWalk at hs
    dsimp only at hs
    split at hs
    · simp at hs
    · split at hs
      · rename_i hstop hfit
        rcases hw : hifoWalk price (r - lot.amount * price) rest with _ | ⟨w, ws⟩
        · rw [hw] at hs
          simp at hs
        · rw [hw, List.dropLast_cons₂] at hs
          rcases List.mem_cons.mp hs with rfl | hs'
          · exact ⟨lot, by simp, rfl, rfl⟩
          · rw [← hw] at hs'
            obtain ⟨l, hl, h1, h2⟩ := ih _ s hs'
            exact ⟨l, by simp [hl], h1, h2⟩
      · simp at hs

theorem hifoWalk_qty_nonneg (price : ℚ) (hp : 0 < price) (L : List TaxLot)
    (hL : ∀ l ∈ L, 0 ≤ l.amount) :
    ∀ r : ℚ, ∀ s ∈ hifoWalk price r L, 0 ≤ s.sell_amount := by
  induction L with
  | nil => intro r s hs; simp [hifoWalk] at hs
  | cons lot rest ih =>
    intro r s hs
    unfold hifoWalk at hs
    dsimp only at hs
    split at hs
    · simp at hs
    · split at hs
      · rcases List.mem_cons.mp hs with rfl | hs'
        · exact hL lot (by simp)
        · exact ih (fun l hl => hL l (by simp [hl])) _ s hs'
      · rename_i hstop hfit
        rw [not_le] at hstop
        rcases List.mem_singleton.mp hs with rfl
        dsimp only
        exact round8_nonneg _ (div_nonneg (le_of_lt hstop) (le_of_lt hp))

theorem attack_eq_hold (st : AppState) (p b : ℚ) (d : Date)
    (h1 : ¬ (st.cash_buffer - st.monthly_need < st.buffer_target * (8/10))) :
    calculate_attack_strategy st p b d =
      ({ st with cash_buffer := st.cash_buffer - st.monthly_need },
       { action := "HOLD", amount_to_sell_usd := 0, amount_to_sell_btc := 0,
         amount_to_sell_eth := 0, new_buffer := st.cash_buffer,
         buffer_before := st.cash_buffer, buffer_target := st.buffer_target,
         sell_plan := [], warnings := [] }) := by
  unfold calculate_attack_strategy
  dsimp only
  rw [if_neg h1]

theorem attack_eq_refill (st : AppState) (p b : ℚ) (d : Date)
    (h1 : st.cash_buffer - st.monthly_need < st.buffer_target * (8/10))
    (h2 : total_sell_amount
        (get_hifo_sell_plan st.tax_lots
          (st.buffer_target - (st.cash_buffer - st.monthly_need)) p) "BTC" ≤ b) :
    calculate_attack_strategy st p b d =
      (let plan := get_hifo_sell_plan st.tax_lots
          (st.buffer_target - (st.cash_buffer - st.monthly_need)) p
       ({ st with cash_buffer := st.cash_buffer - st.monthly_need +
            (st.buffer_target - (st.cash_buffer - st.monthly_need)) },
        { action := "REFILL BUFFER",
          amount_to_sell_usd := st.buffer_target - (st.cash_buffer - st.monthly_need),
          amount_to_sell_btc := round8 (total_sell_amount plan "BTC"),
          amount_to_sell_eth := if total_sell_amount plan "ETH" ≠ 0
            then round8 (total_sell_amount plan "ETH") else 0,
          new_buffer := st.cash_buffer - st.monthly_need +
            (st.buffer_target - (st.cash_buffer - st.monthly_need)),
          buffer_before := st.cash_buffer, buffer_target := st.buffer_target,
          sell_plan := plan,
          warnings := plan.filterMap fun s =>
            if is_long_term s.date_acquired d then none
            else some (shortTermWarning s.lot_id) })) := by
  unfold calculate_attack_strategy
  dsimp only
  rw [if_pos h1, if_pos (Or.inl h2), if_pos h2]

theorem attack_eq_insufficient (st : AppState) (p b : ℚ) (d : Date)
    (h1 : st.cash_buffer - st.monthly_need < st.buffer_target * (8/10))
    (h2 : ¬ total_sell_amount
        (get_hifo_sell_plan st.tax_lots
          (st.buffer_target - (st.cash_buffer - st.monthly_need)) p) "BTC" ≤ b)
    (h3 : 0 < total_sell_amount
        (get_hifo_sell_plan st.tax_lots
          (st.buffer_target - (st.cash_buffer - st.monthly_need)) p) "BTC" +
      total_sell_amount
        (get_hifo_sell_plan st.tax_lots
          (st.buffer_target - (st.cash_buffer - st.monthly_need)) p) "ETH") :
    calculate_attack_strategy st p b d =
      ({ st with cash_buffer := st.cash_buffer - st.monthly_need },
       { action := "INSUFFICIENT FUNDS",
         amount_to_sell_usd := st.buffer_target - (st.cash_buffer - st.monthly_need),
         amount_to_sell_btc := 0, amount_to_sell_eth := 0,
         new_buffer := st.cash_buffer,
         buffer_before := st.cash_buffer, buffer_target := st.buffer_target,
         sell_plan := get_hifo_sell_plan st.tax_lots
           (st.buffer_target - (st.cash_buffer - st.monthly_need)) p,
         warnings := [] }) := by
  unfold calculate_attack_strategy
  dsimp only
  rw [if_pos h1, if_pos (Or.inr h3), if_neg h2]

theorem attack_eq_fallthrough (st : AppState) (p b : ℚ) (d : Date)
    (h1 : st.cash_buffer - st.monthly_need < st.buffer_target * (8/10))
    (hor : ¬ (total_sell_amount
        (get_hifo_sell_plan st.tax_lots
          (st.buffer_target - (st.cash_buffer - st.monthly_need)) p) "BTC" ≤ b ∨
      0 < total_sell_amount
        (get_hifo_sell_plan st.tax_lots
          (st.buffer_target - (st.cash_buffer - st.monthly_need)) p) "BTC" +
      total_sell_amount
        (get_hifo_sell_plan st.tax_lots
          (st.buffer_target - (st.cash_buffer - st.monthly_need)) p) "ETH")) :
    calculate_attack_strategy st p b d =
      ({ st with cash_buffer := st.cash_buffer - st.monthly_need },
       { action := "HOLD",
         amount_to_sell_usd := st.buffer_target - (st.cash_buffer - st.monthly_need),
         amount_to_sell_btc := 0, amount_to_sell_eth := 0,
         new_buffer := st.cash_buffer,
         buffer_before := st.cash_buffer, buffer_target := st.buffer_target,
         sell_plan := get_hifo_sell_plan st.tax_lots
           (st.buffer_target - (st.cash_buffer - st.monthly_need)) p,
         warnings := [] }) := by
  unfold calculate_attack_strategy
  dsimp only
  rw [if_pos h1, if_neg hor]

theorem filter_map_eq {α β : Type} (f : α → β) (p : β → Bool) (l : List α) :
    (l.map f).filter p = (l.filter fun a => p (f a)).map f := by
  induction l with
  | nil => rfl
  | cons x xs ih =>
    simp only [List.map_cons, List.filter_cons]
    by_cases hx : p (f x) = true
    · simp [hx, ih]
    · simp only [hx]
      rw [if_neg (by simp [hx]), if_neg (by simp [hx]), ih]

theorem total_sell_amount_nonneg (plan : List SellInstruction) (a : String)
    (h : ∀ s ∈ plan, 0 ≤ s.sell_amount) : 0 ≤ total_sell_amount plan a := by
  unfold total_sell_amount
  refine List.sum_nonneg ?_
  intro x hx
  obtain ⟨s, hs, rfl⟩ := List.mem_map.mp hx
  exact h s (List.mem_filter.mp hs).1

theorem plan_qty_nonneg (lots : List TaxLot) (t p : ℚ) (hp : 0 < p)
    (hL : ∀ l ∈ lots, 0 ≤ l.amount) (hne : lots ≠ []) :
    ∀ s ∈ get_hifo_sell_plan lots t p, 0 ≤ s.sell_amount := by
  cases lots with
  | nil => exact absurd rfl hne
  | cons l0 ls =>
    intro s hs
    have hL' : ∀ l ∈ sortLotsDesc (l0 :: ls), 0 ≤ l.amount := fun l hl =>
      hL l (mem_sortLotsDesc.mp hl)
    exact hifoWalk_qty_nonneg p hp _ hL' t s hs

theorem eth_total_manual (t p : ℚ) :
    total_sell_amount (get_hifo_sell_plan [] t p) "ETH" = 0 := by
  simp [get_hifo_sell_plan, total_sell_amount, List.filter_cons]

theorem hifo_lotsBtcEth :
    get_hifo_sell_plan lotsBtcEth 25000 1000 =
      [ { lot_id := "b1", asset := "BTC", sell_amount := 10, cost_basis := 2000,
          estimated_gain_loss := -10000, date_acquired := .parsed ⟨2020,1,1⟩, location := "" },
        { lot_id := "e1", asset := "ETH", sell_amount := 1, cost_basis := 1500,
          estimated_gain_loss := -500, date_acquired := .parsed ⟨2020,1,1⟩, location := "" } ] := by
  norm_num [lotsBtcEth, get_hifo_sell_plan, sortLotsDesc, insertLotDesc, hifoWalk]

theorem totals_lotsBtcEth :
    total_sell_amount (get_hifo_sell_plan lotsBtcEth 25000 1000) "BTC" = 10 ∧
    total_sell_amount (get_hifo_sell_plan lotsBtcEth 25000 1000) "ETH" = 1 := by
  rw [hifo_lotsBtcEth]
  constructor <;> simp [total_sell_amount, List.filter_cons]

/-- C1 counterexample: with a BTC lot (10 BTC needed) and a nonzero ETH
lot sale, available BTC balance 5, the refill branch is entered and the
permissive OR-condition holds (the ETH sale is nonzero), yet the code
returns INSUFFICIENT FUNDS and leaves the buffer un-credited at 95000,
contradicting the claim that the refill proceeds. -/
theorem c1_counterexample :
    stBtcEth.cash_buffer - stBtcEth.monthly_need < stBtcEth.buffer_target * (8/10) ∧
    0 < total_sell_amount (get_hifo_sell_plan stBtcEth.tax_lots
        (stBtcEth.buffer_target - (stBtcEth.cash_buffer - stBtcEth.monthly_need)) 1000) "ETH" ∧
    ¬ total_sell_amount (get_hifo_sell_plan stBtcEth.tax_lots
        (stBtcEth.buffer_target - (stBtcEth.cash_buffer - stBtcEth.monthly_need)) 1000) "BTC" ≤ 5 ∧
    (calculate_attack_strategy stBtcEth 1000 5 ⟨2024,6,15⟩).2.action = "INSUFFICIENT FUNDS" ∧
    (calculate_attack_strategy stBtcEth 1000 5 ⟨2024,6,15⟩).1.cash_buffer = 95000 := by
  have hlots : stBtcEth.tax_lots = lotsBtcEth := rfl
  have htgt : stBtcEth.buffer_target - (stBtcEth.cash_buffer - stBtcEth.monthly_need) = 25000 := by
    norm_num [stBtcEth]
  have hbtc : total_sell_amount (get_hifo_sell_plan stBtcEth.tax_lots
      (stBtcEth.buffer_target - (stBtcEth.cash_buffer - stBtcEth.monthly_need)) 1000) "BTC" = 10 := by
    rw [hlots, htgt]
    exact totals_lotsBtcEth.1
  have heth : total_sell_amount (get_hifo_sell_plan stBtcEth.tax_lots
      (stBtcEth.buffer_target - (stBtcEth.cash_buffer - stBtcEth.monthly_need)) 1000) "ETH" = 1 := by
    rw [hlots, htgt]
    exact totals_lotsBtcEth.2
  have h1 : stBtcEth.cash_buffer - stBtcEth.monthly_need < stBtcEth.buffer_target * (8/10) := by
    norm_num [stBtcEth]
  have h2 : ¬ total_sell_amount (get_hifo_sell_plan stBtcEth.tax_lots
      (stBtcEth.buffer_target - (stBtcEth.cash_buffer - stBtcEth.monthly_need)) 1000) "BTC" ≤ 5 := by
    rw [hbtc]
    norm_num
  have h3 : 0 < total_sell_amount (get_hifo_sell_plan stBtcEth.tax_lots
        (stBtcEth.buffer_target - (stBtcEth.cash_buffer - stBtcEth.monthly_need)) 1000) "BTC" +
      total_sell_amount (get_hifo_sell_plan stBtcEth.tax_lots
        (stBtcEth.buffer_target - (stBtcEth.cash_buffer - stBtcEth.monthly_need)) 1000) "ETH" := by
    rw [hbtc, heth]
    norm_num
  have hout := attack_eq_insufficient stBtcEth 1000 5 ⟨2024,6,15⟩ h1 h2 h3
  refine ⟨h1, by rw [heth]; norm_num, h2, ?_, ?_⟩
  · rw [hout]
  · rw [hout]
    norm_num [stBtcEth]

/-- C1 (amended): in the refill branch, the refill proceeds (action =
REFILL BUFFER, buffer credited up to the target) precisely when the
summed BTC sale quantity of the plan does not exceed the available BTC
balance; the OR-condition only selects between INSUFFICIENT FUNDS and a
silent fall-through, never authorizes a refill on its own. -/
theorem c1_refill_requires_btc_coverage (st : AppState) (p b : ℚ) (d : Date)
    (h1 : st.cash_buffer - st.monthly_need < st.buffer_target * (8/10)) :
    ((calculate_attack_strategy st p b d).2.action = "REFILL BUFFER" ↔
      total_sell_amount (get_hifo_sell_plan st.tax_lots
        (st.buffer_target - (st.cash_buffer - st.monthly_need)) p) "BTC" ≤ b) ∧
    (total_sell_amount (get_hifo_sell_plan st.tax_lots
        (st.buffer_target - (st.cash_buffer - st.monthly_need)) p) "BTC" ≤ b →
      (calculate_attack_strategy st p b d).1.cash_buffer = st.buffer_target) := by
  by_cases h2 : total_sell_amount (get_hifo_sell_plan st.tax_lots
      (st.buffer_target - (st.cash_buffer - st.monthly_need)) p) "BTC" ≤ b
  · rw [attack_eq_refill st p b d h1 h2]
    refine ⟨by simpa using h2, fun _ => ?_⟩
    show st.cash_buffer - st.monthly_need +
      (st.buffer_target - (st.cash_buffer - st.monthly_need)) = st.buffer_target
    ring
  · by_cases h3 : 0 < total_sell_amount (get_hifo_sell_plan st.tax_lots
          (st.buffer_target - (st.cash_buffer - st.monthly_need)) p) "BTC" +
        total_sell_amount (get_hifo_sell_plan st.tax_lots
          (st.buffer_target - (st.cash_buffer - st.monthly_need)) p) "ETH"
    · rw [attack_eq_insufficient st p b d h1 h2 h3]
      exact ⟨by simpa using h2, fun hc => absurd hc h2⟩
    · have hor := not_or.mpr ⟨h2, h3⟩
      rw [attack_eq_fallthrough st p b d h1 hor]
      exact ⟨by simpa using h2, fun hc => absurd hc h2⟩

/-- C1 witness: the amended theorem applied to a concrete refill (single
BTC lot, balance 20 covers the 10 BTC needed). -/
theorem c1_refill_requires_btc_coverage_witness :
    ((calculate_attack_strategy stBtcOnly 1000 20 ⟨2024,6,15⟩).2.action = "REFILL BUFFER" ↔
      total_sell_amount (get_hifo_sell_plan stBtcOnly.tax_lots
        (stBtcOnly.buffer_target - (stBtcOnly.cash_buffer - stBtcOnly.monthly_need)) 1000) "BTC" ≤ 20) ∧
    (total_sell_amount (get_hifo_sell_plan stBtcOnly.tax_lots
        (stBtcOnly.buffer_target - (stBtcOnly.cash_buffer - stBtcOnly.monthly_need)) 1000) "BTC" ≤ 20 →
      (calculate_attack_strategy stBtcOnly 1000 20 ⟨2024,6,15⟩).1.cash_buffer = stBtcOnly.buffer_target) :=
  c1_refill_requires_btc_coverage stBtcOnly 1000 20 ⟨2024,6,15⟩ (by norm_num [stBtcOnly])

/-- C2: for every reference date, `is_long_term` applied to an unparseable
or to a missing (empty) acquisition date string returns false, not the
long-term default true asserted by the spec (and implemented with an
explicit `is_long_term = True` fallback on the ingestion side,
csv_parser.py:50-51). -/
theorem c2_long_term_default_is_false (c : Date) :
    is_long_term .unparseable c = false ∧ is_long_term .missing c = false := by
  refine ⟨rfl, ?_⟩
  show (match replaceYearMinus1 c with
    | none => false
    | some one_year_ago => dateLE c one_year_ago) = false
  rcases h : replaceYearMinus1 c with _ | oya
  · rfl
  · unfold replaceYearMinus1 at h
    split at h
    · exact absurd h (by simp)
    · rw [Option.some.injEq] at h
      subst h
      simp only [dateLE, decide_eq_false_iff_not]
      intro hcon
      rcases hcon with h1 | ⟨h1, _⟩ <;> omega

/-- C3: on two holdings of the same asset symbol BTC the diversification
score is 35 = 2*10 + 1*15 (the first term counts holdings, not unique
symbols), while a single BTC holding scores 25 — adding a duplicate
symbol does change the first term, against the claim's formula. -/
theorem c3_diversification_counts_duplicates :
    calculate_diversification twoBtcHoldings = 35 ∧
    calculate_diversification
      [{ asset := "BTC", amount := 1, avg_cost := 1, current_price := 1 }] = 25 := by
  constructor <;>
    norm_num [calculate_diversification, twoBtcHoldings, get_asset_type,
      List.dedup_cons_of_mem, List.dedup_cons_of_not_mem]

/-- C4 counterexample: with a single SOL lot and a negative available BTC
balance, one period-advance below the threshold leaves the action at HOLD
with a non-empty sale plan, refuting both "HOLD implies empty plan" and
"HOLD exactly when the post-decrement balance is at least 80% of the
target". -/
theorem c4_counterexample :
    stSolOnly.cash_buffer - stSolOnly.monthly_need < stSolOnly.buffer_target * (8/10) ∧
    (calculate_attack_strategy stSolOnly 100 (-1) ⟨2024,6,15⟩).2.action = "HOLD" ∧
    (calculate_attack_strategy stSolOnly 100 (-1) ⟨2024,6,15⟩).2.sell_plan ≠ [] := by
  have h1 : stSolOnly.cash_buffer - stSolOnly.monthly_need < stSolOnly.buffer_target * (8/10) := by
    norm_num [stSolOnly]
  have hplan : get_hifo_sell_plan stSolOnly.tax_lots
      (stSolOnly.buffer_target - (stSolOnly.cash_buffer - stSolOnly.monthly_need)) 100 =
      [ { lot_id := "s1", asset := "SOL", sell_amount := 1, cost_basis := 10,
          estimated_gain_loss := 90, date_acquired := .parsed ⟨2020,1,1⟩, location := "" } ] := by
    have htgt : stSolOnly.buffer_target - (stSolOnly.cash_buffer - stSolOnly.monthly_need) = 25000 := by
      norm_num [stSolOnly]
    rw [htgt]
    norm_num [stSolOnly, lotsSolOnly, get_hifo_sell_plan, sortLotsDesc, insertLotDesc, hifoWalk]
  have h2 : ¬ total_sell_amount (get_hifo_sell_plan stSolOnly.tax_lots
      (stSolOnly.buffer_target - (stSolOnly.cash_buffer - stSolOnly.monthly_need)) 100) "BTC" ≤ (-1 : ℚ) := by
    rw [hplan]
    simp [total_sell_amount, List.filter_cons]
  have h3 : ¬ (0 : ℚ) < total_sell_amount (get_hifo_sell_plan stSolOnly.tax_lots
        (stSolOnly.buffer_target - (stSolOnly.cash_buffer - stSolOnly.monthly_need)) 100) "BTC" +
      total_sell_amount (get_hifo_sell_plan stSolOnly.tax_lots
        (stSolOnly.buffer_target - (stSolOnly.cash_buffer - stSolOnly.monthly_need)) 100) "ETH" := by
    rw [hplan]
    simp [total_sell_amount, List.filter_cons]
  have hor := not_or.mpr ⟨h2, h3⟩
  rw [attack_eq_fallthrough stSolOnly 100 (-1) ⟨2024,6,15⟩ h1 hor]
  refine ⟨h1, rfl, ?_⟩
  rw [hplan]
  simp

/-- C4 (amended): for a positive price, a non-negative available BTC
balance and non-negative lot quantities, one period-advance returns HOLD
exactly when the post-decrement balance is at least 80% of the buffer
target, and under HOLD the buffer equals buffer-before minus the monthly
need and the sale plan is empty. -/
theorem c4_hold_invariant_amended (st : AppState) (p b : ℚ) (d : Date)
    (hp : 0 < p) (hb : 0 ≤ b) (hamounts : ∀ l ∈ st.tax_lots, 0 ≤ l.amount) :
    ((calculate_attack_strategy st p b d).2.action = "HOLD" →
      (calculate_attack_strategy st p b d).1.cash_buffer = st.cash_buffer - st.monthly_need ∧
      (calculate_attack_strategy st p b d).2.sell_plan = []) ∧
    ((calculate_attack_strategy st p b d).2.action = "HOLD" ↔
      st.buffer_target * (8/10) ≤ st.cash_buffer - st.monthly_need) := by
  by_cases h1 : st.cash_buffer - st.monthly_need < st.buffer_target * (8/10)
  · have hte : 0 ≤ total_sell_amount (get_hifo_sell_plan st.tax_lots
        (st.buffer_target - (st.cash_buffer - st.monthly_need)) p) "ETH" := by
      rcases hlots : st.tax_lots with _ | ⟨l0, ls⟩
      · rw [eth_total_manual]
      · refine total_sell_amount_nonneg _ _ (plan_qty_nonneg _ _ _ hp ?_ (by simp))
        rw [← hlots]
        exact hamounts
    by_cases h2 : total_sell_amount (get_hifo_sell_plan st.tax_lots
        (st.buffer_target - (st.cash_buffer - st.monthly_need)) p) "BTC" ≤ b
    · rw [attack_eq_refill st p b d h1 h2]
      refine ⟨fun hc => by simp at hc, ?_⟩
      simp only [not_le.mpr h1, iff_false]
      simp
    · have hbtcpos : 0 < total_sell_amount (get_hifo_sell_plan st.tax_lots
          (st.buffer_target - (st.cash_buffer - st.monthly_need)) p) "BTC" := by
        rw [not_le] at h2
        linarith
      have h3 : 0 < total_sell_amount (get_hifo_sell_plan st.tax_lots
            (st.buffer_target - (st.cash_buffer - st.monthly_need)) p) "BTC" +
          total_sell_amount (get_hifo_sell_plan st.tax_lots
            (st.buffer_target - (st.cash_buffer - st.monthly_need)) p) "ETH" := by
        linarith
      rw [attack_eq_insufficient st p b d h1 h2 h3]
      refine ⟨fun hc => by simp at hc, ?_⟩
      simp only [not_le.mpr h1, iff_false]
      simp
  · rw [attack_eq_hold st p b d h1]
    rw [not_lt] at h1
    exact ⟨fun _ => ⟨rfl, rfl⟩, by simpa using h1⟩

/-- C4 witness: the amended theorem at a concrete above-threshold state
(empty lot store, cash 200000, need 5000, target 120000). -/
theorem c4_hold_invariant_amended_witness :
    ((calculate_attack_strategy (mkApp 5000 2 200000) 50000 1 ⟨2024,6,15⟩).2.action = "HOLD" ↔
      (mkApp 5000 2 200000).buffer_target * (8/10) ≤
        (mkApp 5000 2 200000).cash_buffer - (mkApp 5000 2 200000).monthly_need) :=
  (c4_hold_invariant_amended (mkApp 5000 2 200000) 50000 1 ⟨2024,6,15⟩ (by norm_num)
    (by norm_num) (by simp [mkApp])).2

/-- C5: for every non-empty lot list, the HIFO plan is ordered by
non-increasing `cost_basis` (no higher cost basis after a lower one), and
for every cost-basis value the plan's lot ids at that cost basis appear in
their original input order (stable tie-breaking): they form a sublist of
the input's lot ids at that cost basis. -/
theorem c5_hifo_order_and_stability (lots : List TaxLot) (t p : ℚ) (hne : lots ≠ []) :
    (get_hifo_sell_plan lots t p).Pairwise
      (fun a b => b.cost_basis ≤ a.cost_basis) ∧
    ∀ c : ℚ,
      (((get_hifo_sell_plan lots t p).filter fun s => decide (s.cost_basis = c)).map
        fun s => s.lot_id).Sublist
      ((lots.filter fun l => decide (l.cost_basis_per_unit = c)).map fun l => l.lot_id) := by
  rcases lots with _ | ⟨l0, ls⟩
  · exact absurd rfl hne
  have hplan : get_hifo_sell_plan (l0 :: ls) t p = hifoWalk p t (sortLotsDesc (l0 :: ls)) := rfl
  have hsub := hifoWalk_pairs_sublist p t (sortLotsDesc (l0 :: ls))
  constructor
  · have hpw := pairwise_sortLotsDesc (l0 :: ls)
    have hpw2 : ((sortLotsDesc (l0 :: ls)).map fun l =>
        (l.lot_id, l.cost_basis_per_unit)).Pairwise (fun a b => b.2 ≤ a.2) :=
      List.pairwise_map.mpr hpw
    have hpw3 := List.Pairwise.sublist hsub hpw2
    rw [hplan]
    exact List.pairwise_map.mp hpw3
  · intro c
    have h1 := List.Sublist.filter (fun q : String × ℚ => decide (q.2 = c)) hsub
    have h2 := List.Sublist.map Prod.fst h1
    rw [filter_map_eq, filter_map_eq, List.map_map, List.map_map] at h2
    have hst := filter_cost_sortLotsDesc c (l0 :: ls)
    rw [hplan]
    simpa [hst] using h2

/-- C5 witness: the ordering and stability statement at the concrete
two-lot fixture, with the stability part instantiated at cost basis 2000. -/
theorem c5_hifo_order_and_stability_witness :
    (get_hifo_sell_plan lotsBtcEth 25000 1000).Pairwise
      (fun a b => b.cost_basis ≤ a.cost_basis) ∧
    (((get_hifo_sell_plan lotsBtcEth 25000 1000).filter
        fun s => decide (s.cost_basis = 2000)).map fun s => s.lot_id).Sublist
      ((lotsBtcEth.filter fun l => decide (l.cost_basis_per_unit = 2000)).map
        fun l => l.lot_id) :=
  ⟨(c5_hifo_order_and_stability lotsBtcEth 25000 1000 (by simp [lotsBtcEth])).1,
   (c5_hifo_order_and_stability lotsBtcEth 25000 1000 (by simp [lotsBtcEth])).2 2000⟩

/-- C6 counterexample: at lot quantity 2.6e-8, unit price 1 and target
2.55e-8, the fractional sale quantity rounds to 3e-8, which exceeds the
lot's quantity — refuting "each instruction's sold quantity is at most
its lot's quantity" as stated. -/
theorem c6_counterexample :
    ¬ ∀ s ∈ get_hifo_sell_plan lotsTiny (51/2000000000) 1, ∀ l ∈ lotsTiny,
        s.lot_id = l.lot_id → s.sell_amount ≤ l.amount := by
  intro hcl
  have hfloor : ⌊(51:ℚ)/2000000000 * 10 ^ 8⌋ = 2 := by
    rw [show (51:ℚ)/2000000000 * 10 ^ 8 = 51/20 by norm_num]
    rw [Int.floor_eq_iff]
    norm_num
  have hr8 : round8 ((51:ℚ)/2000000000) = 3/100000000 := by
    unfold round8 roundHalfEven
    dsimp only
    rw [hfloor]
    norm_num
  have hplan : get_hifo_sell_plan lotsTiny (51/2000000000) 1 =
      [ { lot_id := "t1", asset := "BTC", sell_amount := 3/100000000, cost_basis := 1,
          estimated_gain_loss := 0, date_acquired := .parsed ⟨2020,1,1⟩, location := "" } ] := by
    norm_num [lotsTiny, get_hifo_sell_plan, sortLotsDesc, insertLotDesc, hifoWalk, hr8]
  have hmem : ({ lot_id := "t1", asset := "BTC", sell_amount := 3/100000000, cost_basis := 1,
                 estimated_gain_loss := 0, date_acquired := .parsed ⟨2020,1,1⟩,
                 location := "" } : SellInstruction) ∈
      get_hifo_sell_plan lotsTiny (51/2000000000) 1 := by
    rw [hplan]
    simp
  have hlot : ({ lot_id := "t1", asset := "BTC", amount := 26/1000000000,
                 cost_basis_per_unit := 1, date_acquired := .parsed ⟨2020,1,1⟩, fee_paid := 0,
                 location := "" } : TaxLot) ∈ lotsTiny := by
    simp [lotsTiny]
  have h := hcl _ hmem _ hlot rfl
  norm_num at h

/-- C6 (amended): for a non-negative target and a positive price, the
plan's total quantity times the price exceeds the target by at most one
unit in the 8th decimal place times the price; for non-empty lots each
instruction comes from a lot and its quantity exceeds that lot's quantity
by at most one unit in the 8th decimal place (the rounding slack the
counterexample forces); every instruction before the last sells its whole
lot, so a fractional sale can only be last and the selection stops there. -/
theorem c6_plan_bounds_amended (lots : List TaxLot) (t p : ℚ) (ht : 0 ≤ t) (hp : 0 < p) :
    ((get_hifo_sell_plan lots t p).map fun s => s.sell_amount).sum * p ≤
      t + p * (1 / 10 ^ 8) ∧
    (lots ≠ [] → ∀ s ∈ get_hifo_sell_plan lots t p,
      ∃ l ∈ lots, s.lot_id = l.lot_id ∧ s.sell_amount ≤ l.amount + 1 / 10 ^ 8) ∧
    (∀ s ∈ (get_hifo_sell_plan lots t p).dropLast,
      ∃ l ∈ lots, s.lot_id = l.lot_id ∧ s.sell_amount = l.amount) := by
  rcases lots with _ | ⟨l0, ls⟩
  · refine ⟨?_, fun h => absurd rfl h, ?_⟩
    · show (t / p + 0) * p ≤ t + p * (1 / 10 ^ 8)
      rw [add_zero, div_mul_cancel₀ t (ne_of_gt hp)]
      nlinarith
    · intro s hs
      simp [get_hifo_sell_plan] at hs
  · have hplan : get_hifo_sell_plan (l0 :: ls) t p = hifoWalk p t (sortLotsDesc (l0 :: ls)) := rfl
    refine ⟨?_, fun _ s hs => ?_, fun s hs => ?_⟩
    · rw [hplan]
      exact hifoWalk_sum_mul_le p hp _ t ht
    · rw [hplan] at hs
      obtain ⟨l, hl, hid, hle⟩ := hifoWalk_qty_le p hp _ t s hs
      exact ⟨l, mem_sortLotsDesc.mp hl, hid, hle⟩
    · rw [hplan] at hs
      obtain ⟨l, hl, hid, heq⟩ := hifoWalk_dropLast_whole p _ t s hs
      exact ⟨l, mem_sortLotsDesc.mp hl, hid, heq⟩

/-- C6 witness: the overshoot bound of the amended theorem at the
concrete two-lot fixture. -/
theorem c6_plan_bounds_amended_witness :
    ((get_hifo_sell_plan lotsBtcEth 25000 1000).map fun s => s.sell_amount).sum * 1000 ≤
      25000 + 1000 * (1 / 10 ^ 8) :=
  (c6_plan_bounds_amended lotsBtcEth 25000 1000 (by norm_num) (by norm_num)).1

/-- C7: for every non-negative target and positive unit price, the HIFO
selector on an empty lot store returns exactly one synthetic instruction
with lot id "manual", asset BTC, sale quantity target/price and zero
gain/loss. -/
theorem c7_empty_lots_manual_fallback (t p : ℚ) (ht : 0 ≤ t) (hp : 0 < p) :
    get_hifo_sell_plan [] t p =
      [{ lot_id := "manual", asset := "BTC", sell_amount := t / p,
         estimated_gain_loss := 0 }] := rfl

/-- C7 witness: target 1000 at unit price 50000 yields the single
synthetic instruction with quantity 1/50 = 0.02 and zero gain/loss. -/
theorem c7_empty_lots_manual_fallback_witness :
    get_hifo_sell_plan [] 1000 50000 =
      [{ lot_id := "manual", asset := "BTC", sell_amount := 1/50,
         estimated_gain_loss := 0 }] ∧ (1000 : ℚ) / 50000 = 1/50 := by
  have h := c7_empty_lots_manual_fallback 1000 50000 (by norm_num) (by norm_num)
  have h2 : (1000 : ℚ) / 50000 = 1/50 := by norm_num
  rw [h2] at h
  exact ⟨h, h2⟩

theorem recStablecoin_mem_iff (holdings : List Holding) (r ds pnl : ℚ) :
    recStablecoin ∈ generate_recommendations holdings r ds pnl ↔
      ¬ ∃ h ∈ holdings, h.asset = "USDC" ∨ h.asset = "USDT" := by
  unfold generate_recommendations
  have h1 : recStablecoin ∉ (if 75 < r then [recDiversify] else []) := by
    split <;> simp [recStablecoin, recDiversify]
  have h2 : recStablecoin ∉ (if ds < 40 then [recVariety] else []) := by
    split <;> simp [recStablecoin, recVariety]
  have h4 : recStablecoin ∉ (if 50 < pnl then [recProfit] else []) := by
    split <;> simp [recStablecoin, recProfit]
  by_cases hg : (holdings.any fun h => h.asset == "USDC" || h.asset == "USDT") = true
  · have hex : ∃ h ∈ holdings, h.asset = "USDC" ∨ h.asset = "USDT" := by
      simpa using hg
    have hC : (if (!(holdings.any fun h => h.asset == "USDC" || h.asset == "USDT")) = true
        then [recStablecoin] else []) = [] := by
      simp [hg]
    rw [hC]
    constructor
    · intro hm
      rcases List.mem_append.mp hm with hm2 | hD
      · rcases List.mem_append.mp hm2 with hm3 | hC'
        · rcases List.mem_append.mp hm3 with hA | hB
          · exact absurd hA h1
          · exact absurd hB h2
        · simp at hC'
      · exact absurd hD h4
    · intro hn
      exact absurd hex hn
  · have hno : ¬ ∃ h ∈ holdings, h.asset = "USDC" ∨ h.asset = "USDT" := by
      simpa using hg
    have hC : (if (!(holdings.any fun h => h.asset == "USDC" || h.asset == "USDT")) = true
        then [recStablecoin] else []) = [recStablecoin] := by
      rw [Bool.not_eq_true] at hg
      simp [hg]
    rw [hC]
    constructor
    · intro _
      exact hno
    · intro _
      refine List.mem_append.mpr (Or.inl (List.mem_append.mpr (Or.inr ?_)))
      simp

/-- C8 counterexample: a portfolio whose only stablecoin is DAI (which
`_get_asset_type` classifies as STABLECOIN) still receives the
stablecoin-allocation suggestion, because the recommendation gate only
checks USDC and USDT — refuting the claim's "in particular" case. -/
theorem c8_counterexample :
    recStablecoin ∈ portfolio_recommendations daiHoldings ∧
    get_asset_type "DAI" = "STABLECOIN" := by
  constructor
  · rw [portfolio_recommendations, recStablecoin_mem_iff]
    simp [daiHoldings]
  · rfl

/-- C8 (amended): the recommendation list contains the
stablecoin-allocation suggestion exactly when no holding has asset USDC
or USDT; DAI holdings do not disable the suggestion. -/
theorem c8_stablecoin_gate_amended (holdings : List Holding) :
    recStablecoin ∈ portfolio_recommendations holdings ↔
      ¬ ∃ h ∈ holdings, h.asset = "USDC" ∨ h.asset = "USDT" :=
  recStablecoin_mem_iff holdings _ _ _

/-- C9: for every non-empty holdings list with non-negative current
values, the risk score equals min(100, top_share*50 + volatile_share*50)
with the spec's share definitions, and both the risk score and the
diversification score lie in [0, 100]. -/
theorem c9_risk_formula_and_bounds (holdings : List Holding) (hne : holdings ≠ [])
    (hnn : ∀ h ∈ holdings, 0 ≤ h.current_value) :
    calculate_risk holdings =
      min 100 (spec_top_share holdings * 50 + spec_volatile_share holdings * 50) ∧
    0 ≤ calculate_risk holdings ∧ calculate_risk holdings ≤ 100 ∧
    0 ≤ calculate_diversification holdings ∧ calculate_diversification holdings ≤ 100 := by
  rcases holdings with _ | ⟨h0, hs⟩
  · exact absurd rfl hne
  have hvals : ∀ x ∈ (h0 :: hs).map Holding.current_value, (0:ℚ) ≤ x := by
    intro x hx
    obtain ⟨y, hy, rfl⟩ := List.mem_map.mp hx
    exact hnn y hy
  have htot : 0 ≤ ((h0 :: hs).map Holding.current_value).sum := List.sum_nonneg hvals
  have hvolnn : 0 ≤ (((h0 :: hs).filter fun h =>
      decide (h.asset ∈ ["BTC", "ETH", "SOL", "MATIC"])).map Holding.current_value).sum := by
    refine List.sum_nonneg ?_
    intro x hx
    obtain ⟨y, hy, rfl⟩ := List.mem_map.mp hx
    exact hnn y (List.mem_filter.mp hy).1
  have hfil : ((h0 :: hs).filter fun h => decide (h.asset ∈ ["BTC", "ETH", "SOL", "MATIC"])) =
      ((h0 :: hs).filter fun h =>
        decide (h.asset = "BTC" ∨ h.asset = "ETH" ∨ h.asset = "SOL" ∨ h.asset = "MATIC")) := by
    refine List.filter_congr ?_
    intro x _
    simp [List.mem_cons]
  have htop_eq : (if 0 < ((h0 :: hs).map Holding.current_value).sum
      then listMax ((h0 :: hs).map Holding.current_value) /
        ((h0 :: hs).map Holding.current_value).sum else 0) = spec_top_share (h0 :: hs) := by
    unfold spec_top_share
    dsimp only
    by_cases h0' : ((h0 :: hs).map Holding.current_value).sum = 0
    · rw [if_pos h0', if_neg (by rw [h0']; exact lt_irrefl 0)]
    · rw [if_neg h0', if_pos (lt_of_le_of_ne htot (Ne.symm h0'))]
  have hvol_eq : (if 0 < ((h0 :: hs).map Holding.current_value).sum
      then (((h0 :: hs).filter fun h =>
          decide (h.asset ∈ ["BTC", "ETH", "SOL", "MATIC"])).map Holding.current_value).sum /
        ((h0 :: hs).map Holding.current_value).sum else 0) = spec_volatile_share (h0 :: hs) := by
    unfold spec_volatile_share
    dsimp only
    rw [hfil]
    by_cases h0' : ((h0 :: hs).map Holding.current_value).sum = 0
    · rw [if_neg (by rw [h0']; exact lt_irrefl 0), h0', div_zero]
    · rw [if_pos (lt_of_le_of_ne htot (Ne.symm h0'))]
  have hrisk : calculate_risk (h0 :: hs) =
      min 100 (spec_top_share (h0 :: hs) * 50 + spec_volatile_share (h0 :: hs) * 50) := by
    unfold calculate_risk
    dsimp only
    rw [htop_eq, hvol_eq, min_comm]
  have htopnn : 0 ≤ spec_top_share (h0 :: hs) := by
    unfold spec_top_share
    dsimp only
    split
    · exact le_refl 0
    · exact div_nonneg (listMax_nonneg _ hvals) htot
  have hvolsh : 0 ≤ spec_volatile_share (h0 :: hs) := by
    unfold spec_volatile_share
    dsimp only
    rw [hfil] at hvolnn
    exact div_nonneg hvolnn htot
  have hdiv_eq : calculate_diversification (h0 :: hs) =
      min ((((h0 :: hs).map fun h => h.asset).length : ℚ) * 10 +
        ((((h0 :: hs).map fun h => get_asset_type h.asset).dedup).length : ℚ) * 15) 100 := rfl
  refine ⟨hrisk, ?_, ?_, ?_, ?_⟩
  · rw [hrisk]
    exact le_min (by norm_num) (by positivity)
  · rw [hrisk]
    exact min_le_left _ _
  · rw [hdiv_eq]
    exact le_min (by positivity) (by norm_num)
  · rw [hdiv_eq]
    exact min_le_right _ _

/-- C9 witness: the formula and bounds at the concrete one-holding DAI
fixture. -/
theorem c9_risk_formula_and_bounds_witness :
    calculate_risk daiHoldings =
      min 100 (spec_top_share daiHoldings * 50 + spec_volatile_share daiHoldings * 50) ∧
    0 ≤ calculate_risk daiHoldings ∧ calculate_risk daiHoldings ≤ 100 ∧
    0 ≤ calculate_diversification daiHoldings ∧ calculate_diversification daiHoldings ≤ 100 :=
  c9_risk_formula_and_bounds daiHoldings (by simp [daiHoldings])
    (by intro h hh; simp [daiHoldings] at hh; simp [hh, Holding.current_value])

/-- C10: whenever the period-advance returns INSUFFICIENT FUNDS, the
buffer state keeps the monthly decrement but receives no refill credit,
the output's new_buffer records the pre-decrement value, the warnings
list is empty, the full computed sell plan and USD amount are carried,
and the per-asset sell amounts stay 0. -/
theorem c10_insufficient_funds_effects (st : AppState) (p b : ℚ) (d : Date)
    (h : (calculate_attack_strategy st p b d).2.action = "INSUFFICIENT FUNDS") :
    (calculate_attack_strategy st p b d).1.cash_buffer = st.cash_buffer - st.monthly_need ∧
    (calculate_attack_strategy st p b d).2.new_buffer = st.cash_buffer ∧
    (calculate_attack_strategy st p b d).2.warnings = [] ∧
    (calculate_attack_strategy st p b d).2.sell_plan =
      get_hifo_sell_plan st.tax_lots (st.buffer_target - (st.cash_buffer - st.monthly_need)) p ∧
    (calculate_attack_strategy st p b d).2.amount_to_sell_usd =
      st.buffer_target - (st.cash_buffer - st.monthly_need) ∧
    (calculate_attack_strategy st p b d).2.amount_to_sell_btc = 0 ∧
    (calculate_attack_strategy st p b d).2.amount_to_sell_eth = 0 := by
  by_cases h1 : st.cash_buffer - st.monthly_need < st.buffer_target * (8/10)
  · by_cases h2 : total_sell_amount (get_hifo_sell_plan st.tax_lots
        (st.buffer_target - (st.cash_buffer - st.monthly_need)) p) "BTC" ≤ b
    · rw [attack_eq_refill st p b d h1 h2] at h
      simp at h
    · by_cases h3 : 0 < total_sell_amount (get_hifo_sell_plan st.tax_lots
            (st.buffer_target - (st.cash_buffer - st.monthly_need)) p) "BTC" +
          total_sell_amount (get_hifo_sell_plan st.tax_lots
            (st.buffer_target - (st.cash_buffer - st.monthly_need)) p) "ETH"
      · rw [attack_eq_insufficient st p b d h1 h2 h3]
        exact ⟨rfl, rfl, rfl, rfl, rfl, rfl, rfl⟩
      · have hor := not_or.mpr ⟨h2, h3⟩
        rw [attack_eq_fallthrough st p b d h1 hor] at h
        simp at h
  · rw [attack_eq_hold st p b d h1] at h
    simp at h

/-- C10 witness: the theorem applied to a concrete INSUFFICIENT FUNDS
run (single 10-BTC lot, available balance 5). -/
theorem c10_insufficient_funds_effects_witness :
    (calculate_attack_strategy stBtcOnly 1000 5 ⟨2024,6,15⟩).1.cash_buffer =
      stBtcOnly.cash_buffer - stBtcOnly.monthly_need ∧
    (calculate_attack_strategy stBtcOnly 1000 5 ⟨2024,6,15⟩).2.new_buffer = stBtcOnly.cash_buffer ∧
    (calculate_attack_strategy stBtcOnly 1000 5 ⟨2024,6,15⟩).2.warnings = [] := by
  have hplan : get_hifo_sell_plan stBtcOnly.tax_lots
      (stBtcOnly.buffer_target - (stBtcOnly.cash_buffer - stBtcOnly.monthly_need)) 1000 =
      [ { lot_id := "b1", asset := "BTC", sell_amount := 10, cost_basis := 2000,
          estimated_gain_loss := -10000, date_acquired := .parsed ⟨2020,1,1⟩, location := "" } ] := by
    have htgt : stBtcOnly.buffer_target - (stBtcOnly.cash_buffer - stBtcOnly.monthly_need) = 25000 := by
      norm_num [stBtcOnly]
    rw [htgt]
    norm_num [stBtcOnly, lotsBtcOnly, get_hifo_sell_plan, sortLotsDesc, insertLotDesc, hifoWalk]
  have h2 : ¬ total_sell_amount (get_hifo_sell_plan stBtcOnly.tax_lots
      (stBtcOnly.buffer_target - (stBtcOnly.cash_buffer - stBtcOnly.monthly_need)) 1000) "BTC" ≤ 5 := by
    rw [hplan]
    simp [total_sell_amount, List.filter_cons]
    norm_num
  have h3 : 0 < total_sell_amount (get_hifo_sell_plan stBtcOnly.tax_lots
        (stBtcOnly.buffer_target - (stBtcOnly.cash_buffer - stBtcOnly.monthly_need)) 1000) "BTC" +
      total_sell_amount (get_hifo_sell_plan stBtcOnly.tax_lots
        (stBtcOnly.buffer_target - (stBtcOnly.cash_buffer - stBtcOnly.monthly_need)) 1000) "ETH" := by
    rw [hplan]
    simp [total_sell_amount, List.filter_cons]
  have h1 : stBtcOnly.cash_buffer - stBtcOnly.monthly_need < stBtcOnly.buffer_target * (8/10) := by
    norm_num [stBtcOnly]
  have h : (calculate_attack_strategy stBtcOnly 1000 5 ⟨2024,6,15⟩).2.action = "INSUFFICIENT FUNDS" := by
    rw [attack_eq_insufficient stBtcOnly 1000 5 ⟨2024,6,15⟩ h1 h2 h3]
  obtain ⟨ha, hb, hc, -, -, -, -⟩ := c10_insufficient_funds_effects stBtcOnly 1000 5 ⟨2024,6,15⟩ h
  exact ⟨ha, hb, hc⟩
